import Mathlib

/-!
# A verification development of the `manasvi30/Compiler` pipeline

Shallow embedding of `src/compiler.py`: a four-stage pipeline
(Lexer → Parser → CodeGenerator → VirtualMachine) for a minimal
imperative language with `var` declarations, `print` statements and
the binary operators `+ - * /`.

Modelling conventions, chosen to stay close to the Python source:

* Python tuples `(kind, value)` for tokens become the `Token` structure
  whose `value` field is the dynamic `TokVal` (int, string, or `None`).
* AST nodes are Python tuples dispatched on their first element; the
  `Expr` and `Stmt` inductives carry the same data, with a constructor
  (`Expr.leaf`, `Stmt.other`) for tuples whose tag is inspected at run
  time rather than fixed by the grammar.
* Instructions are the plain strings the code generator emits
  (`f"ALLOC {name}"` …); the VM re-splits them on whitespace exactly as
  `instruction.split()` does.
* Python `int` is `Int`; Python `float` is modelled as an exact rational
  (`Rat`), which agrees with IEEE semantics on every value arising in
  the claims (small dyadic rationals); Python `None` (the uninitialised
  marker) is `Value.vnone` / `TokVal.vnone`.
* Exceptions become `Except` values: `SyntaxError` raised by the lexer
  is `LexError`, by the parser `ParseError`; the code generator's
  `RuntimeError` is `CodeGenError`; the Python `IndexError`,
  `TypeError`, `ValueError` and `ZeroDivisionError` that can escape the
  VM are the constructors of `VMError`.
* Methods that mutate `self` (the lexer's growing `self.tokens`, the
  code generator's `self.instructions`, the VM's stack and variable
  dict) take that state explicitly and return the updated state.
* The recursive-descent parser is written with an explicit fuel
  argument; `parseFuel` below is proved sufficient, which is the
  termination argument for the Python original.
* Character classes use the ASCII readings of the source regexes
  (`\d`, `[a-zA-Z_]\w*`), faithful on ASCII input, which is all the
  specification exercises.
-/

/-- The dynamic second component of a Python token tuple: an `int`
(NUMBER tokens), a `str` (all other real tokens), or `None` (EOF). -/
inductive TokVal where
  | vint (n : Int)
  | vstr (s : String)
  | vnone
  deriving DecidableEq, Repr

/-- `f"{v}"` / `str(v)` on a token value, as the code generator's
f-strings use it. -/
def TokVal.toName : TokVal → String
  | .vint n => toString n
  | .vstr s => s
  | .vnone => "None"

/-- A token `(kind, value)` as produced by `Lexer.tokenize`. -/
structure Token where
  kind : String
  value : TokVal
  deriving DecidableEq, Repr

/-- The sentinel `("EOF", None)` appended at the end of tokenisation. -/
def eofToken : Token := ⟨"EOF", .vnone⟩

/-- The lexer's `SyntaxError` (`Unexpected character: {value}`), raised
from the `MISMATCH` rule.  `fuelOut` is the marker of the embedding's
fuel counter running out; `tokenizeChars` always supplies enough fuel
(`tokenizeCharsF_no_fuelOut`), so it never escapes. -/
inductive LexError where
  | unexpectedChar (c : Char)
  | fuelOut
  deriving DecidableEq, Repr

/-- `\w` of the source regexes, read over ASCII:
letters, digits and underscore. -/
def isWordChar (c : Char) : Bool := c.isAlphanum || c = '_'

/-- Digit-string to number, as Python `int(value)` on a `\d+` match. -/
def digitsToNat (ds : List Char) : Nat :=
  ds.foldl (fun a c => 10 * a + (c.toNat - 48)) 0

/-- One left-to-right pass of `re.finditer` over the priority-ordered
rules `NUMBER, IDENTIFIER, ASSIGN, SEMICOLON, OPERATOR, LPAREN, RPAREN,
SKIP, MISMATCH`. Each rule consumes maximally at the current position;
spaces and tabs are discarded; a newline matches no pattern (the
catch-all `.` excludes it) and is silently skipped; any other unmatched
character raises. -/
def tokenizeCharsF : Nat → List Char → Except LexError (List Token)
  | _, [] => .ok []
  | 0, _ :: _ => .error .fuelOut
  | n + 1, c :: cs =>
    if c.isDigit then
      match tokenizeCharsF n (cs.dropWhile Char.isDigit) with
      | .error e => .error e
      | .ok ts =>
          .ok (⟨"NUMBER", .vint (digitsToNat (c :: cs.takeWhile Char.isDigit))⟩ :: ts)
    else if c.isAlpha || c = '_' then
      match tokenizeCharsF n (cs.dropWhile isWordChar) with
      | .error e => .error e
      | .ok ts =>
          .ok (⟨"IDENTIFIER", .vstr (String.mk (c :: cs.takeWhile isWordChar))⟩ :: ts)
    else if c = '=' then
      match tokenizeCharsF n cs with
      | .error e => .error e
      | .ok ts => .ok (⟨"ASSIGN", .vstr "="⟩ :: ts)
    else if c = ';' then
      match tokenizeCharsF n cs with
      | .error e => .error e
      | .ok ts => .ok (⟨"SEMICOLON", .vstr ";"⟩ :: ts)
    else if c = '+' || c = '-' || c = '*' || c = '/' then
      match tokenizeCharsF n cs with
      | .error e => .error e
      | .ok ts => .ok (⟨"OPERATOR", .vstr (String.mk [c])⟩ :: ts)
    else if c = '(' then
      match tokenizeCharsF n cs with
      | .error e => .error e
      | .ok ts => .ok (⟨"LPAREN", .vstr "("⟩ :: ts)
    else if c = ')' then
      match tokenizeCharsF n cs with
      | .error e => .error e
      | .ok ts => .ok (⟨"RPAREN", .vstr ")"⟩ :: ts)
    else if c = ' ' || c = '\t' then
      tokenizeCharsF n cs
    else if c = '\n' then
      tokenizeCharsF n cs
    else
      .error (.unexpectedChar c)

/-- The scan over the whole character list, with fuel equal to its
length (each step consumes at least one character, so this is enough:
`tokenizeCharsF_sufficient`). -/
def tokenizeChars (cs : List Char) : Except LexError (List Token) :=
  tokenizeCharsF cs.length cs

/-- `Lexer.tokenize(self, code)`: appends the new tokens and the EOF
sentinel to the tokens already held in `self.tokens` (the receiver
state `selfTokens`) and returns the whole list. -/
def tokenize (selfTokens : List Token) (code : String) :
    Except LexError (List Token) :=
  match tokenizeChars code.data with
  | .error e => .error e
  | .ok ts => .ok (selfTokens ++ ts ++ [eofToken])

/-- An expression node as the code generator sees it: either the
4-tuple `("bin_op", op, left, right)` built by `Parser.expression`, a
2-tuple `(tag, value)` — the parser only ever returns the token tuples
`("NUMBER", v)` and `("IDENTIFIER", name)` here, but
`generate_expression` dispatches on the tag at run time, so `leaf`
carries an arbitrary tag — or a bare Python `int`. -/
inductive Expr where
  | binOp (op : TokVal) (left right : Expr)
  | leaf (tag : String) (value : TokVal)
  | rawInt (n : Int)
  deriving DecidableEq, Repr

/-- A statement node: `("var_decl", name, value)`, `("print", value)`,
or a tuple with any other head tag (what the code generator's defensive
`else` branch guards against). -/
inductive Stmt where
  | varDecl (name : TokVal) (value : Expr)
  | printS (value : Expr)
  | other (tag : String)
  deriving DecidableEq, Repr

/-- Errors escaping `Parser`: `expected`/`unknownStatement`/
`unexpectedToken` are the three `SyntaxError` messages of the source;
`indexError` is the Python `IndexError` raised by `self.tokens[self.pos]`
when the position runs off the end of the token list; `fuelOut` is the
marker of the embedding's fuel counter running out (proved unreachable
for the fuel bound `parseFuel` below). -/
inductive ParseError where
  | expected (exp found : String)
  | unknownStatement (v : TokVal)
  | unexpectedToken (kind : String)
  | indexError
  | fuelOut
  deriving DecidableEq, Repr

/-- `Parser.peek`: `self.tokens[self.pos]`. -/
def peekT (toks : List Token) (pos : Nat) : Except ParseError Token :=
  match toks.get? pos with
  | some t => .ok t
  | none => .error .indexError

/-- `Parser.expect`: consume the current token if its kind matches,
else raise `Expected {token_type}, found {peek[0]}`. -/
def expectT (toks : List Token) (pos : Nat) (kind : String) :
    Except ParseError (Token × Nat) :=
  match peekT toks pos with
  | .error e => .error e
  | .ok t => if t.kind = kind then .ok (t, pos + 1) else .error (.expected kind t.kind)

mutual

/-- `Parser.term`: a NUMBER or IDENTIFIER token (returned whole), or a
parenthesised expression. -/
def termF : Nat → List Token → Nat → Except ParseError (Expr × Nat)
  | 0, _, _ => .error .fuelOut
  | n + 1, toks, pos =>
    match peekT toks pos with
    | .error e => .error e
    | .ok t =>
      if t.kind = "NUMBER" then .ok (.leaf t.kind t.value, pos + 1)
      else if t.kind = "IDENTIFIER" then .ok (.leaf t.kind t.value, pos + 1)
      else if t.kind = "LPAREN" then
        match exprF n toks (pos + 1) with
        | .error e => .error e
        | .ok (e, pos1) =>
          match expectT toks pos1 "RPAREN" with
          | .error e => .error e
          | .ok (_, pos2) => .ok (e, pos2)
      else .error (.unexpectedToken t.kind)

/-- `Parser.expression`: a term followed by the operator fold loop. -/
def exprF : Nat → List Token → Nat → Except ParseError (Expr × Nat)
  | 0, _, _ => .error .fuelOut
  | n + 1, toks, pos =>
    match termF n toks pos with
    | .error e => .error e
    | .ok (left, pos1) => exprLoopF n toks left pos1

/-- The `while self.peek()[0] == "OPERATOR"` loop of
`Parser.expression`: folds `Term (OPERATOR Term)*` into left-nested
`bin_op` tuples, with no operator priority. -/
def exprLoopF : Nat → List Token → Expr → Nat → Except ParseError (Expr × Nat)
  | 0, _, _, _ => .error .fuelOut
  | n + 1, toks, left, pos =>
    match peekT toks pos with
    | .error e => .error e
    | .ok t =>
      if t.kind = "OPERATOR" then
        match termF n toks (pos + 1) with
        | .error e => .error e
        | .ok (right, pos1) => exprLoopF n toks (.binOp t.value left right) pos1
      else .ok (left, pos)

/-- `Parser.variable_declaration`:
`IDENT("var") IDENT(name) '=' Expression ';'`. -/
def variableDeclarationF : Nat → List Token → Nat → Except ParseError (Stmt × Nat)
  | 0, _, _ => .error .fuelOut
  | n + 1, toks, pos =>
    match expectT toks pos "IDENTIFIER" with
    | .error e => .error e
    | .ok (_, pos1) =>
      match expectT toks pos1 "IDENTIFIER" with
      | .error e => .error e
      | .ok (nameTok, pos2) =>
        match expectT toks pos2 "ASSIGN" with
        | .error e => .error e
        | .ok (_, pos3) =>
          match exprF n toks pos3 with
          | .error e => .error e
          | .ok (value, pos4) =>
            match expectT toks pos4 "SEMICOLON" with
            | .error e => .error e
            | .ok (_, pos5) => .ok (.varDecl nameTok.value value, pos5)

/-- `Parser.print_statement`: `IDENT("print") Expression ';'`. -/
def printStatementF : Nat → List Token → Nat → Except ParseError (Stmt × Nat)
  | 0, _, _ => .error .fuelOut
  | n + 1, toks, pos =>
    match expectT toks pos "IDENTIFIER" with
    | .error e => .error e
    | .ok (_, pos1) =>
      match exprF n toks pos1 with
      | .error e => .error e
      | .ok (value, pos2) =>
        match expectT toks pos2 "SEMICOLON" with
        | .error e => .error e
        | .ok (_, pos3) => .ok (.printS value, pos3)

/-- `Parser.statement`: dispatch on the current token's literal text
being `"var"` or `"print"`; anything else raises `Unknown statement`. -/
def statementF : Nat → List Token → Nat → Except ParseError (Stmt × Nat)
  | 0, _, _ => .error .fuelOut
  | n + 1, toks, pos =>
    match peekT toks pos with
    | .error e => .error e
    | .ok t =>
      if t.kind = "IDENTIFIER" ∧ t.value = .vstr "var" then
        variableDeclarationF n toks pos
      else if t.kind = "IDENTIFIER" ∧ t.value = .vstr "print" then
        printStatementF n toks pos
      else .error (.unknownStatement t.value)

/-- `Parser.parse`: `while self.peek()[0] != "EOF": statements.append(self.statement())`. -/
def parseLoopF : Nat → List Token → Nat → Except ParseError (List Stmt × Nat)
  | 0, _, _ => .error .fuelOut
  | n + 1, toks, pos =>
    match peekT toks pos with
    | .error e => .error e
    | .ok t =>
      if t.kind = "EOF" then .ok ([], pos)
      else
        match statementF n toks pos with
        | .error e => .error e
        | .ok (s, pos1) =>
          match parseLoopF n toks pos1 with
          | .error e => .error e
          | .ok (ss, pos2) => .ok (s :: ss, pos2)

end

/-- Fuel sufficient for `parseLoopF` on `toks` from position 0
(proved in `parseLoopF_total`). -/
def parseFuel (toks : List Token) : Nat := 3 * toks.length + 2

/-- `Parser(tokens).parse()` on a fresh parser (`self.pos = 0`). -/
def parse (toks : List Token) : Except ParseError (List Stmt) :=
  match parseLoopF (parseFuel toks) toks 0 with
  | .error e => .error e
  | .ok (ss, _) => .ok ss

/-- The exceptions escaping `CodeGenerator`: `unknownStatementType` is
the `RuntimeError(f"Unknown statement type: {statement[0]}")` of
`generate_statement`; `valueError` is the Python `ValueError` raised by
`_, op, left, right = expr` in `generate_expression` when a tuple whose
first element is `"bin_op"` does not have four elements. -/
inductive CodeGenError where
  | unknownStatementType (tag : String)
  | valueError
  deriving DecidableEq, Repr

/-- `CodeGenerator.generate_expression`: post-order emission.  The tag
checks run in source order: a 2-tuple whose tag is `bin_op` passes
`expr[0] == "bin_op"` and then crashes with `ValueError` at the 4-way
unpacking; a 2-tuple tagged `NUMBER`/`IDENTIFIER` is a PUSH/LOAD; a
tuple with any other tag falls through every `elif` and is silently
skipped (no instruction, no error); a bare `int` is pushed. -/
def generate_expression : Expr → Except CodeGenError (List String)
  | .binOp op l r =>
    match generate_expression l with
    | .error e => .error e
    | .ok gl =>
      match generate_expression r with
      | .error e => .error e
      | .ok gr => .ok (gl ++ gr ++ ["OP " ++ op.toName])
  | .leaf tag v =>
    if tag = "bin_op" then .error .valueError
    else if tag = "NUMBER" then .ok ["PUSH " ++ v.toName]
    else if tag = "IDENTIFIER" then .ok ["LOAD " ++ v.toName]
    else .ok []
  | .rawInt n => .ok ["PUSH " ++ toString n]

/-- `CodeGenerator.generate_statement`: emits a statement's code,
raising `RuntimeError` for a tuple whose tag is neither `var_decl` nor
`print` and propagating any exception out of `generate_expression`. -/
def generate_statement : Stmt → Except CodeGenError (List String)
  | .varDecl name value =>
    match generate_expression value with
    | .error e => .error e
    | .ok code => .ok (["ALLOC " ++ name.toName] ++ code ++ ["STORE " ++ name.toName])
  | .printS value =>
    match generate_expression value with
    | .error e => .error e
    | .ok code => .ok (code ++ ["PRINT"])
  | .other tag => .error (.unknownStatementType tag)

/-- `CodeGenerator.generate(self, ast)`: appends each statement's code
to the instructions already held in `self.instructions` (the receiver
state `acc`) and returns the whole list. -/
def generate (acc : List String) : List Stmt → Except CodeGenError (List String)
  | [] => .ok acc
  | s :: ss =>
    match generate_statement s with
    | .error e => .error e
    | .ok code => generate (acc ++ code) ss

/-- A scalar run-time value: a Python `int`, a Python `float`
(modelled as an exact rational), or `None` (the Uninitialised marker
`ALLOC` writes and `dict.get` returns for an absent key). -/
inductive Value where
  | vint (n : Int)
  | vfloat (q : Rat)
  | vnone
  deriving DecidableEq, Repr

/-- The Python exceptions that can escape
`VirtualMachine.execute_instruction`: `IndexError` (`pop` from an empty
stack, or a missing `parts[i]`), `TypeError` (arithmetic on `None`),
`ValueError` (`int(...)` on a non-numeral), `ZeroDivisionError`. -/
inductive VMError where
  | indexError
  | typeError
  | valueError
  | zeroDivisionError
  deriving DecidableEq, Repr

/-- Python `left + right` on stack values: `int+int` stays `int`, any
`float` operand promotes, `None` raises `TypeError`. -/
def pyAdd : Value → Value → Except VMError Value
  | .vint a, .vint b => .ok (.vint (a + b))
  | .vint a, .vfloat q => .ok (.vfloat ((a : Rat) + q))
  | .vfloat p, .vint b => .ok (.vfloat (p + (b : Rat)))
  | .vfloat p, .vfloat q => .ok (.vfloat (p + q))
  | _, _ => .error .typeError

/-- Python `left - right` (same promotion as `pyAdd`). -/
def pySub : Value → Value → Except VMError Value
  | .vint a, .vint b => .ok (.vint (a - b))
  | .vint a, .vfloat q => .ok (.vfloat ((a : Rat) - q))
  | .vfloat p, .vint b => .ok (.vfloat (p - (b : Rat)))
  | .vfloat p, .vfloat q => .ok (.vfloat (p - q))
  | _, _ => .error .typeError

/-- Python `left * right` (same promotion as `pyAdd`). -/
def pyMul : Value → Value → Except VMError Value
  | .vint a, .vint b => .ok (.vint (a * b))
  | .vint a, .vfloat q => .ok (.vfloat ((a : Rat) * q))
  | .vfloat p, .vint b => .ok (.vfloat (p * (b : Rat)))
  | .vfloat p, .vfloat q => .ok (.vfloat (p * q))
  | _, _ => .error .typeError

/-- Python `left / right`: true division, always a `float`, raising
`ZeroDivisionError` on a zero divisor and `TypeError` on `None`. -/
def pyDiv : Value → Value → Except VMError Value
  | .vint a, .vint b =>
      if b = 0 then .error .zeroDivisionError else .ok (.vfloat ((a : Rat) / (b : Rat)))
  | .vint a, .vfloat q =>
      if q = 0 then .error .zeroDivisionError else .ok (.vfloat ((a : Rat) / q))
  | .vfloat p, .vint b =>
      if b = 0 then .error .zeroDivisionError else .ok (.vfloat (p / (b : Rat)))
  | .vfloat p, .vfloat q =>
      if q = 0 then .error .zeroDivisionError else .ok (.vfloat (p / q))
  | _, _ => .error .typeError

/-- Python `int(s)` on the operand of a `PUSH`: an optional sign
followed by one or more digits. -/
def parseIntStr (s : String) : Option Int :=
  match s.data with
  | [] => none
  | '-' :: ds =>
      if ds ≠ [] ∧ ds.all Char.isDigit then some (-(digitsToNat ds : Int)) else none
  | '+' :: ds =>
      if ds ≠ [] ∧ ds.all Char.isDigit then some (digitsToNat ds : Int) else none
  | ds => if ds.all Char.isDigit then some (digitsToNat ds : Int) else none

/-- Python `str.split()` over a character list: split on runs of
whitespace, dropping empty pieces; `acc` holds the reversed characters
of the word currently being read. -/
def splitAux : List Char → List Char → List String
  | [], acc => if acc = [] then [] else [String.mk acc.reverse]
  | c :: cs, acc =>
    if c.isWhitespace then
      if acc = [] then splitAux cs [] else String.mk acc.reverse :: splitAux cs []
    else splitAux cs (c :: acc)

/-- `instruction.split()`. -/
def pySplit (s : String) : List String := splitAux s.data []

/-- The mutable state of a `VirtualMachine`: the operand stack (list
head = top) and the variable store `self.variables` (a Python dict,
modelled by its lookup function). -/
structure VMState where
  stack : List Value
  vars : String → Option Value

/-- The fresh state `VirtualMachine.__init__` builds. -/
def freshVM : VMState := ⟨[], fun _ => none⟩

/-- The body of `VirtualMachine.execute_instruction` after
`parts = instruction.split()`: dispatch on `parts[0]`.  Returns the new
state and the values printed by this instruction.  Mirrored quirks:
`LOAD` uses `self.variables.get(var_name)`, so a never-allocated name
pushes `None` rather than raising; an `OP` whose operator is none of
`+ - * /` pops both operands and pushes nothing; an instruction whose
opcode matches no branch is a silent no-op. -/
def stepParts (st : VMState) : List String → Except VMError (VMState × List Value)
  | [] => .error .indexError
  | op :: args =>
    if op = "ALLOC" then
      match args with
      | [] => .error .indexError
      | name :: _ =>
          .ok ({ st with vars := fun k => if k = name then some .vnone else st.vars k }, [])
    else if op = "PUSH" then
      match args with
      | [] => .error .indexError
      | v :: _ =>
        match parseIntStr v with
        | none => .error .valueError
        | some n => .ok ({ st with stack := .vint n :: st.stack }, [])
    else if op = "LOAD" then
      match args with
      | [] => .error .indexError
      | name :: _ =>
        .ok ({ st with
                stack := (match st.vars name with
                          | some v => v
                          | none => .vnone) :: st.stack }, [])
    else if op = "STORE" then
      match args with
      | [] => .error .indexError
      | name :: _ =>
        match st.stack with
        | [] => .error .indexError
        | v :: rest =>
            .ok ({ stack := rest,
                   vars := fun k => if k = name then some v else st.vars k }, [])
    else if op = "OP" then
      match args with
      | [] => .error .indexError
      | o :: _ =>
        match st.stack with
        | [] => .error .indexError
        | right :: rest1 =>
          match rest1 with
          | [] => .error .indexError
          | left :: rest =>
            if o = "+" then
              match pyAdd left right with
              | .error e => .error e
              | .ok v => .ok ({ st with stack := v :: rest }, [])
            else if o = "-" then
              match pySub left right with
              | .error e => .error e
              | .ok v => .ok ({ st with stack := v :: rest }, [])
            else if o = "*" then
              match pyMul left right with
              | .error e => .error e
              | .ok v => .ok ({ st with stack := v :: rest }, [])
            else if o = "/" then
              match pyDiv left right with
              | .error e => .error e
              | .ok v => .ok ({ st with stack := v :: rest }, [])
            else .ok ({ st with stack := rest }, [])
    else if op = "PRINT" then
      match st.stack with
      | [] => .error .indexError
      | v :: rest => .ok ({ st with stack := rest }, [v])
    else .ok (st, [])

/-- `VirtualMachine.execute_instruction`. -/
def execute_instruction (st : VMState) (instr : String) :
    Except VMError (VMState × List Value) :=
  stepParts st (pySplit instr)

/-- `VirtualMachine.execute`: run the instruction tape in order,
stopping at the first exception, collecting the printed values. -/
def execute (st : VMState) : List String → Except VMError (VMState × List Value)
  | [] => .ok (st, [])
  | i :: is =>
    match execute_instruction st i with
    | .error e => .error e
    | .ok (st1, o1) =>
      match execute st1 is with
      | .error e => .error e
      | .ok (st2, o2) => .ok (st2, o1 ++ o2)

/-- An error from any of the four pipeline stages. -/
inductive RunError where
  | lex (e : LexError)
  | parseE (e : ParseError)
  | gen (e : CodeGenError)
  | vm (e : VMError)
  deriving DecidableEq, Repr

/-- The whole pipeline as the demonstration driver wires it: fresh
`Lexer`, fresh `Parser`, fresh `CodeGenerator`, fresh `VirtualMachine`.
Returns the final VM state and the printed values. -/
def run (code : String) : Except RunError (VMState × List Value) :=
  match tokenize [] code with
  | .error e => .error (.lex e)
  | .ok toks =>
    match parse toks with
    | .error e => .error (.parseE e)
    | .ok stmts =>
      match generate [] stmts with
      | .error e => .error (.gen e)
      | .ok ins =>
        match execute freshVM ins with
        | .error e => .error (.vm e)
        | .ok (st, out) => .ok (st, out)

/-- The printed values of a whole pipeline run. -/
def runOut (code : String) : Except RunError (List Value) :=
  (run code).map Prod.snd

/-- Decimal digits of the fraction `r / d` (with `r < d`), by long
division; empty once the remainder is zero. -/
def fracDigits : Nat → Nat → Nat → List Char
  | 0, _, _ => []
  | fuel + 1, r, d =>
    if r = 0 then []
    else Char.ofNat (48 + (r * 10) / d % 10) :: fracDigits fuel ((r * 10) % d) d

/-- Python `repr`/`print` rendering of a `float` whose value has a
finite short decimal expansion (every float printed in this
development is such): sign, integer part, a dot, then the fraction
digits, `.0` when the value is integral. -/
def floatRepr (q : Rat) : String :=
  (if q.num < 0 then "-" else "")
    ++ toString (q.num.natAbs / q.den)
    ++ "."
    ++ (if q.num.natAbs % q.den = 0 then "0"
        else String.mk (fracDigits 17 (q.num.natAbs % q.den) q.den))

/-- What `print(value)` writes: Python's default textual rendering. -/
def pyRepr : Value → String
  | .vint n => toString n
  | .vfloat q => floatRepr q
  | .vnone => "None"

/-- The characters the lexer can consume: digits, letters, underscore,
the seven punctuation tokens, spaces and tabs (the SKIP rule), and the
newline the catch-all silently skips. -/
def allowedChar (c : Char) : Bool :=
  c.isDigit || c.isAlpha || c = '_' || c = '=' || c = ';' || c = '+' || c = '-'
    || c = '*' || c = '/' || c = '(' || c = ')' || c = ' ' || c = '\t' || c = '\n'

/-- The four operator lexemes the OPERATOR rule can produce. -/
def opStrings : List TokVal := [.vstr "+", .vstr "-", .vstr "*", .vstr "/"]

/-- Token-stream well-formedness needed for the net-zero stack
invariant: every OPERATOR token carries one of the four operator
lexemes (which `Lexer.tokenize` guarantees). -/
def TokensWF (toks : List Token) : Prop :=
  ∀ t ∈ toks, t.kind = "OPERATOR" → t.value ∈ opStrings

/-- Expressions the parser can actually build from a well-formed token
stream: leaves are NUMBER/IDENTIFIER tokens and every operator is one
of `+ - * /`.  Executing such an expression's code pushes exactly one
value. -/
inductive ExprWF : Expr → Prop where
  | binOp {op l r} : op ∈ opStrings → ExprWF l → ExprWF r → ExprWF (.binOp op l r)
  | leafNum {v} : ExprWF (.leaf "NUMBER" v)
  | leafIdent {v} : ExprWF (.leaf "IDENTIFIER" v)

/-- Statements the parser can actually build: `var_decl` or `print`
over well-formed expressions. -/
inductive StmtWF : Stmt → Prop where
  | varDecl {name e} : ExprWF e → StmtWF (.varDecl name e)
  | printS {e} : ExprWF e → StmtWF (.printS e)

/-- Position `pos` still has an EOF token at or after it: the invariant
that keeps `self.tokens[self.pos]` in bounds throughout the parse. -/
def HasEOF (toks : List Token) (pos : Nat) : Prop :=
  ∃ i t, pos ≤ i ∧ toks.get? i = some t ∧ t.kind = "EOF"

/-- The token list ends in the EOF sentinel, as `Lexer.tokenize`
guarantees. -/
def EOFTerminated (toks : List Token) : Prop :=
  ∃ t, toks.getLast? = some t ∧ t.kind = "EOF"

/-- Outcome of one parser routine, for the termination proof: the
computation did not die of fuel exhaustion or an out-of-bounds peek,
and on success the position did not move backwards (strictly forwards
when `strict`) and still has the EOF sentinel ahead of it. -/
def ParseGood {α : Type} (toks : List Token) (pos : Nat) (strict : Bool)
    (r : Except ParseError (α × Nat)) : Prop :=
  match r with
  | .error e => e ≠ .fuelOut ∧ e ≠ .indexError
  | .ok (_, pos') =>
    (match strict with
     | true => pos < pos'
     | false => pos ≤ pos') ∧ HasEOF toks pos'

theorem generate_append (ss : List Stmt) : ∀ acc : List String,
    generate acc ss = (generate [] ss).map (fun l => acc ++ l) := by
  induction ss with
  | nil => intro acc; simp [generate, Except.map]
  | cons s ss ih =>
    intro acc
    simp only [generate]
    cases generate_statement s with
    | error e => simp [Except.map]
    | ok code =>
      simp only [ih (acc ++ code), ih ([] ++ code)]
      cases generate [] ss with
      | error e => simp [Except.map]
      | ok l => simp [Except.map]

/-- C1: all binary operators share one precedence level and associate
strictly left-to-right.  First conjunct: for any values at all in the
token pattern `NUMBER OPERATOR NUMBER OPERATOR NUMBER`, `expression`
folds into a left-nested `bin_op` with the second operator outermost.
Remaining conjuncts: `print 2+3*4;` tokenises and parses as
`(2+3)*4` and the whole pipeline prints `20`, not `14`. -/
theorem expression_folds_left_to_right :
    (∀ o1 o2 v1 v2 v3 : TokVal,
      exprF 20 [⟨"NUMBER", v1⟩, ⟨"OPERATOR", o1⟩, ⟨"NUMBER", v2⟩,
          ⟨"OPERATOR", o2⟩, ⟨"NUMBER", v3⟩, eofToken] 0
        = .ok (.binOp o2 (.binOp o1 (.leaf "NUMBER" v1) (.leaf "NUMBER" v2))
                (.leaf "NUMBER" v3), 5))
    ∧ tokenize [] "print 2+3*4;"
        = .ok [⟨"IDENTIFIER", .vstr "print"⟩, ⟨"NUMBER", .vint 2⟩,
            ⟨"OPERATOR", .vstr "+"⟩, ⟨"NUMBER", .vint 3⟩,
            ⟨"OPERATOR", .vstr "*"⟩, ⟨"NUMBER", .vint 4⟩,
            ⟨"SEMICOLON", .vstr ";"⟩, eofToken]
    ∧ parse [⟨"IDENTIFIER", .vstr "print"⟩, ⟨"NUMBER", .vint 2⟩,
          ⟨"OPERATOR", .vstr "+"⟩, ⟨"NUMBER", .vint 3⟩,
          ⟨"OPERATOR", .vstr "*"⟩, ⟨"NUMBER", .vint 4⟩,
          ⟨"SEMICOLON", .vstr ";"⟩, eofToken]
        = .ok [.printS (.binOp (.vstr "*")
            (.binOp (.vstr "+") (.leaf "NUMBER" (.vint 2)) (.leaf "NUMBER" (.vint 3)))
            (.leaf "NUMBER" (.vint 4)))]
    ∧ runOut "print 2+3*4;" = .ok [.vint 20] :=
  ⟨fun _ _ _ _ _ => rfl, rfl, rfl, rfl⟩

/-- C2: `/` always yields a Float-kind value (never truncating integer
division), while `+ - *` on two Integers yield an Integer; `print(4/2);`
prints `2.0`, `print(5/2);` prints `2.5`, `print(5-2);` prints `3`. -/
theorem division_always_float :
    runOut "print(4/2);" = .ok [.vfloat 2]
    ∧ pyRepr (.vfloat 2) = "2.0"
    ∧ runOut "print(5/2);" = .ok [.vfloat (5 / 2 : Rat)]
    ∧ pyRepr (.vfloat (5 / 2 : Rat)) = "2.5"
    ∧ runOut "print(5-2);" = .ok [.vint 3]
    ∧ pyRepr (.vint 3) = "3"
    ∧ (∀ a b : Int, pyAdd (.vint a) (.vint b) = .ok (.vint (a + b)))
    ∧ (∀ a b : Int, pySub (.vint a) (.vint b) = .ok (.vint (a - b)))
    ∧ (∀ a b : Int, pyMul (.vint a) (.vint b) = .ok (.vint (a * b)))
    ∧ (∀ a b : Int, pyDiv (.vint a) (.vint b)
        = if b = 0 then .error .zeroDivisionError
          else .ok (.vfloat ((a : Rat) / (b : Rat)))) := by
  refine ⟨by with_unfolding_all rfl, rfl, by with_unfolding_all rfl,
    by with_unfolding_all rfl, rfl, rfl,
    fun a b => rfl, fun a b => rfl, fun a b => rfl, fun a b => rfl⟩

/-- C3 counterexample: `print y;` with no prior `var y` does not raise;
the pipeline succeeds and prints `None` (rendered by `pyRepr`). -/
theorem load_unknown_prints_none :
    runOut "print y;" = .ok [.vnone] ∧ pyRepr .vnone = "None" := ⟨rfl, rfl⟩

/-- C3 as amended: the VM raises on `OP` over an Uninitialised operand
(`TypeError`) and on popping an empty stack (`IndexError`), but `LOAD`
of a never-allocated name silently pushes `None` (via `dict.get`) and
`PRINT` of `None` succeeds, printing `None`; so `print y;` with no
prior `var y` prints `None` instead of raising. -/
theorem vm_error_behaviour :
    (∀ (name : String) (stack : List Value),
      stepParts ⟨stack, freshVM.vars⟩ ["LOAD", name]
        = .ok (⟨.vnone :: stack, freshVM.vars⟩, []))
    ∧ (∀ (l : Value) (rest : List Value) (vars : String → Option Value),
      stepParts ⟨.vnone :: l :: rest, vars⟩ ["OP", "+"] = .error .typeError)
    ∧ (∀ (l : Value) (rest : List Value) (vars : String → Option Value),
      stepParts ⟨.vnone :: l :: rest, vars⟩ ["OP", "-"] = .error .typeError)
    ∧ (∀ (l : Value) (rest : List Value) (vars : String → Option Value),
      stepParts ⟨.vnone :: l :: rest, vars⟩ ["OP", "*"] = .error .typeError)
    ∧ (∀ (l : Value) (rest : List Value) (vars : String → Option Value),
      stepParts ⟨.vnone :: l :: rest, vars⟩ ["OP", "/"] = .error .typeError)
    ∧ (∀ (rest : List Value) (vars : String → Option Value),
      stepParts ⟨.vnone :: rest, vars⟩ ["PRINT"] = .ok (⟨rest, vars⟩, [.vnone]))
    ∧ (∀ vars : String → Option Value,
      stepParts ⟨[], vars⟩ ["PRINT"] = .error .indexError)
    ∧ execute freshVM ["LOAD y", "PRINT"] = .ok (freshVM, [.vnone]) := by
  refine ⟨fun name stack => rfl,
    fun l rest vars => by cases l <;> rfl,
    fun l rest vars => by cases l <;> rfl,
    fun l rest vars => by cases l <;> rfl,
    fun l rest vars => by cases l <;> rfl,
    fun rest vars => rfl, fun vars => rfl, rfl⟩

/-- C4 counterexample: a statement containing an expression tuple with
the unknown tag `bogus` generates an instruction sequence (the bogus
node silently skipped) instead of failing with a CodeGenError. -/
theorem unknown_expr_tag_silently_skipped :
    generate [] [.printS (.leaf "bogus" .vnone)] = .ok ["PRINT"] := rfl

/-- C4 as amended: the code generator raises `RuntimeError` for a
statement tuple with an unrecognised tag; an expression 2-tuple tagged
`bin_op` enters the `bin_op` branch and crashes with `ValueError` at
the 4-way unpacking; and an expression tuple whose tag is none of
`bin_op`, `NUMBER`, `IDENTIFIER` is silently skipped, producing no
instruction and no error. -/
theorem codegen_unknown_tags :
    (∀ tag : String, tag ≠ "var_decl" → tag ≠ "print" →
      generate_statement (.other tag) = .error (.unknownStatementType tag))
    ∧ (∀ v : TokVal, generate_expression (.leaf "bin_op" v) = .error .valueError)
    ∧ (∀ (tag : String) (v : TokVal),
      tag ≠ "bin_op" → tag ≠ "NUMBER" → tag ≠ "IDENTIFIER" →
      generate_expression (.leaf tag v) = .ok []) := by
  refine ⟨fun tag _ _ => rfl, fun v => rfl, fun tag v h0 h1 h2 => ?_⟩
  simp [generate_expression, h0, h1, h2]

theorem codegen_unknown_tags_witness :
    generate_statement (.other "bogus") = .error (.unknownStatementType "bogus")
    ∧ generate_expression (.leaf "bin_op" .vnone) = .error .valueError
    ∧ generate_expression (.leaf "bogus" .vnone) = .ok [] :=
  ⟨codegen_unknown_tags.1 "bogus" (by decide) (by decide),
   codegen_unknown_tags.2.1 .vnone,
   codegen_unknown_tags.2.2 "bogus" .vnone (by decide) (by decide) (by decide)⟩

/-- C5: `STORE name` succeeds for every variable store, whether or not
`name` was ever `ALLOC`'d: it pops the top value and binds `name` to
it.  The last conjunct runs the full string instruction on a store
that has never seen the name. -/
theorem store_needs_no_alloc :
    (∀ (name : String) (v : Value) (rest : List Value)
        (vars : String → Option Value),
      ∃ st', stepParts ⟨v :: rest, vars⟩ ["STORE", name] = .ok (st', [])
        ∧ st'.stack = rest ∧ st'.vars name = some v)
    ∧ (∃ st', execute_instruction ⟨[.vint 7], freshVM.vars⟩ "STORE zz"
        = .ok (st', [])
        ∧ st'.vars "zz" = some (.vint 7) ∧ st'.stack = []) := by
  refine ⟨fun name v rest vars => ⟨_, rfl, rfl, by simp⟩, ⟨_, rfl, rfl, rfl⟩⟩

/-- C8: `ALLOC` resets any existing binding to Uninitialised (`None`),
whatever was stored before, and a later `STORE` overrides it:
`var x = 10; var x = 20; print x;` prints `20`. -/
theorem alloc_resets_binding :
    (∀ (st : VMState) (name : String),
      ∃ st', stepParts st ["ALLOC", name] = .ok (st', [])
        ∧ st'.vars name = some .vnone ∧ st'.stack = st.stack)
    ∧ runOut "var x = 10; var x = 20; print x;" = .ok [.vint 20] := by
  refine ⟨fun st name => ⟨_, rfl, by simp, rfl⟩, rfl⟩

/-- C9 counterexample: two successive `tokenize` calls on the same
`Lexer` object (its `self.tokens` surviving in between) do not return
identical results on identical input — the second returns the
accumulated list. -/
theorem lexer_state_accumulates :
    tokenize [] "1" = .ok [⟨"NUMBER", .vint 1⟩, eofToken]
    ∧ tokenize [⟨"NUMBER", .vint 1⟩, eofToken] "1"
        = .ok [⟨"NUMBER", .vint 1⟩, eofToken, ⟨"NUMBER", .vint 1⟩, eofToken]
    ∧ ([⟨"NUMBER", .vint 1⟩, eofToken, ⟨"NUMBER", .vint 1⟩, eofToken]
        : List Token) ≠ [⟨"NUMBER", .vint 1⟩, eofToken] :=
  ⟨rfl, rfl, by decide⟩

/-- C9 as amended: each compile-side stage is a pure function of the
pair (receiver state, input).  On a fresh object the result is
determined by the input alone; on a reused object the prior
`self.tokens` / `self.instructions` contents are prepended, so a second
identical invocation returns a strictly larger list, not the same
one. -/
theorem stages_pure_in_state_and_input :
    (∀ (st : List Token) (code : String) (ts : List Token),
      tokenize st code = .ok ts →
        ∃ fresh, tokenize [] code = .ok fresh ∧ ts = st ++ fresh)
    ∧ (∀ (acc : List String) (stmts : List Stmt) (r : List String),
      generate acc stmts = .ok r →
        ∃ fr, generate [] stmts = .ok fr ∧ r = acc ++ fr) := by
  constructor
  · intro st code ts h
    unfold tokenize at h ⊢
    cases htc : tokenizeChars code.data with
    | error e => rw [htc] at h; cases h
    | ok ts0 =>
      rw [htc] at h
      refine ⟨ts0 ++ [eofToken], by simp, ?_⟩
      cases h
      simp
  · intro acc stmts r h
    rw [generate_append] at h
    cases hg : generate [] stmts with
    | error e => rw [hg] at h; cases h
    | ok fr => rw [hg] at h; cases h; exact ⟨fr, rfl, rfl⟩

theorem stages_pure_witness :
    (∃ fresh, tokenize [] "1" = .ok fresh
      ∧ [⟨"NUMBER", TokVal.vint 1⟩, eofToken] = [] ++ fresh)
    ∧ (∃ fr, generate [] [.printS (.leaf "NUMBER" (.vint 1))] = .ok fr
      ∧ ["PUSH 1", "PRINT"] = [] ++ fr) :=
  ⟨stages_pure_in_state_and_input.1 [] "1" _ rfl,
   stages_pure_in_state_and_input.2 [] [.printS (.leaf "NUMBER" (.vint 1))]
     ["PUSH 1", "PRINT"] rfl⟩

theorem allowedChar_of_digit {c : Char} (h : c.isDigit = true) : allowedChar c = true := by
  simp [allowedChar, h]

theorem allowedChar_of_word {c : Char} (h : isWordChar c = true) : allowedChar c = true := by
  simp [isWordChar, Char.isAlphanum] at h
  rcases h with ((h | h) | h) <;> simp [allowedChar, h]

theorem all_allowed_takeWhile {p : Char → Bool}
    (hp : ∀ c, p c = true → allowedChar c = true) (cs : List Char) :
    (cs.takeWhile p).all allowedChar = true :=
  List.all_eq_true.mpr fun x hx => hp x (List.mem_takeWhile_imp hx)

theorem tokenizeCharsF_isOk : ∀ (n : Nat) (cs : List Char), cs.length ≤ n →
    (tokenizeCharsF n cs).isOk = cs.all allowedChar := by
  intro n
  induction n with
  | zero =>
    intro cs h
    have h0 : cs = [] := List.eq_nil_of_length_eq_zero (Nat.le_zero.mp h)
    subst h0; rfl
  | succ n ih =>
    intro cs h
    match cs with
    | [] => rfl
    | c :: cs =>
      have hlen : cs.length ≤ n := by simpa using h
      have hdrop : ∀ p : Char → Bool, (cs.dropWhile p).length ≤ n :=
        fun p => le_trans (List.dropWhile_suffix p).length_le hlen
      simp only [tokenizeCharsF]
      split_ifs with h1 h2 h3 h4 h5 h6 h7 h8 h9
      · -- NUMBER
        rw [List.all_cons, allowedChar_of_digit h1, Bool.true_and,
          ← List.takeWhile_append_dropWhile (p := Char.isDigit) (l := cs),
          List.all_append, all_allowed_takeWhile (fun c hc => allowedChar_of_digit hc),
          Bool.true_and, List.takeWhile_append_dropWhile]
        rw [← ih _ (hdrop Char.isDigit)]
        cases tokenizeCharsF n (cs.dropWhile Char.isDigit) <;> rfl
      · -- IDENTIFIER
        have hw : isWordChar c = true := by
          rcases Bool.or_eq_true_iff.mp h2 with h | h <;>
            simp [isWordChar, Char.isAlphanum, h]
        rw [List.all_cons, allowedChar_of_word hw, Bool.true_and,
          ← List.takeWhile_append_dropWhile (p := isWordChar) (l := cs),
          List.all_append, all_allowed_takeWhile (fun c hc => allowedChar_of_word hc),
          Bool.true_and, List.takeWhile_append_dropWhile]
        rw [← ih _ (hdrop isWordChar)]
        cases tokenizeCharsF n (cs.dropWhile isWordChar) <;> rfl
      · rw [List.all_cons, show allowedChar c = true by simp [allowedChar, h3],
          Bool.true_and, ← ih _ hlen]
        cases tokenizeCharsF n cs <;> rfl
      · rw [List.all_cons, show allowedChar c = true by simp [allowedChar, h4],
          Bool.true_and, ← ih _ hlen]
        cases tokenizeCharsF n cs <;> rfl
      · have hac : allowedChar c = true := by
          rcases Bool.or_eq_true_iff.mp h5 with hh | hh
          · rcases Bool.or_eq_true_iff.mp hh with hh | hh
            · rcases Bool.or_eq_true_iff.mp hh with hh | hh <;> simp [allowedChar, hh]
            · simp [allowedChar, hh]
          · simp [allowedChar, hh]
        rw [List.all_cons, hac, Bool.true_and, ← ih _ hlen]
        cases tokenizeCharsF n cs <;> rfl
      · rw [List.all_cons, show allowedChar c = true by simp [allowedChar, h6],
          Bool.true_and, ← ih _ hlen]
        cases tokenizeCharsF n cs <;> rfl
      · rw [List.all_cons, show allowedChar c = true by simp [allowedChar, h7],
          Bool.true_and, ← ih _ hlen]
        cases tokenizeCharsF n cs <;> rfl
      · have hac : allowedChar c = true := by
          rcases Bool.or_eq_true_iff.mp h8 with hh | hh <;> simp [allowedChar, hh]
        rw [List.all_cons, hac, Bool.true_and]
        exact ih _ hlen
      · rw [List.all_cons, show allowedChar c = true by simp [allowedChar, h9],
          Bool.true_and]
        exact ih _ hlen
      · -- MISMATCH
        have hac : allowedChar c = false := by
          simp only [Bool.or_eq_true, not_or] at h2 h5 h8
          simp [allowedChar, h1, h2.1, h2.2, h3, h4, h5.1.1.1, h5.1.1.2, h5.1.2,
            h5.2, h6, h7, h8.1, h8.2, h9]
        rw [List.all_cons, hac]
        rfl

theorem tokenizeCharsF_no_fuelOut : ∀ (n : Nat) (cs : List Char), cs.length ≤ n →
    tokenizeCharsF n cs ≠ .error .fuelOut := by
  intro n
  induction n with
  | zero =>
    intro cs h
    have h0 : cs = [] := List.eq_nil_of_length_eq_zero (Nat.le_zero.mp h)
    subst h0; intro hc; cases hc
  | succ n ih =>
    intro cs h
    match cs with
    | [] => intro hc; cases hc
    | c :: cs =>
      have hlen : cs.length ≤ n := by simpa using h
      have hdrop : ∀ p : Char → Bool, (cs.dropWhile p).length ≤ n :=
        fun p => le_trans (List.dropWhile_suffix p).length_le hlen
      simp only [tokenizeCharsF]
      split_ifs
      case _ =>
        cases hF : tokenizeCharsF n (cs.dropWhile Char.isDigit) with
        | error e =>
          have := ih _ (hdrop Char.isDigit); rw [hF] at this
          simpa using this
        | ok ts => simp
      case _ =>
        cases hF : tokenizeCharsF n (cs.dropWhile isWordChar) with
        | error e =>
          have := ih _ (hdrop isWordChar); rw [hF] at this
          simpa using this
        | ok ts => simp
      all_goals
        first
        | (cases hF : tokenizeCharsF n cs with
           | error e =>
             have := ih _ hlen; rw [hF] at this
             simpa using this
           | ok ts => simp)
        | exact ih _ hlen
        | simp

/-- C7: `tokenize` raises a LexError exactly when the source contains a
character outside digits, letters/underscore, `= ; + - * / ( )`,
space, tab and newline (first conjunct, as a run/flag equation);
newline characters match no rule and are silently skipped with no token
and no error; spaces and tabs are likewise discarded without being
emitted; `#` and `$` raise. -/
theorem lexer_error_iff_disallowed_char :
    (∀ code : String, (tokenize [] code).isOk = code.data.all allowedChar)
    ∧ (∀ code : String, tokenize [] code ≠ .error .fuelOut)
    ∧ (∀ cs : List Char, tokenizeChars ('\n' :: cs) = tokenizeChars cs)
    ∧ (∀ cs : List Char, tokenizeChars (' ' :: cs) = tokenizeChars cs)
    ∧ (∀ cs : List Char, tokenizeChars ('\t' :: cs) = tokenizeChars cs)
    ∧ tokenize [] "#" = .error (.unexpectedChar '#')
    ∧ tokenize [] "$" = .error (.unexpectedChar '$') := by
  refine ⟨fun code => ?_, fun code => ?_, fun cs => rfl, fun cs => rfl,
    fun cs => rfl, rfl, rfl⟩
  · rw [← tokenizeCharsF_isOk code.data.length code.data le_rfl]
    unfold tokenize tokenizeChars
    cases tokenizeCharsF code.data.length code.data <;> rfl
  · have := tokenizeCharsF_no_fuelOut code.data.length code.data le_rfl
    unfold tokenize tokenizeChars
    cases hF : tokenizeCharsF code.data.length code.data with
    | error e => rw [hF] at this; simpa using this
    | ok ts => simp

theorem hasEOF_pos_lt {toks : List Token} {pos : Nat} (h : HasEOF toks pos) :
    pos < toks.length := by
  obtain ⟨i, u, hpi, hgu, hu⟩ := h
  cases hg : toks.get? i with
  | none => rw [hg] at hgu; cases hgu
  | some t =>
    have : i < toks.length := by
      by_contra hni
      rw [List.get?_eq_none.mpr (Nat.le_of_not_lt hni)] at hg
      cases hg
    omega

theorem peekT_ok_of_hasEOF {toks : List Token} {pos : Nat} (h : HasEOF toks pos) :
    ∃ t, toks.get? pos = some t ∧ peekT toks pos = .ok t := by
  have hlt := hasEOF_pos_lt h
  cases hg : toks.get? pos with
  | none => rw [List.get?_eq_none] at hg; omega
  | some t => exact ⟨t, rfl, by unfold peekT; rw [hg]⟩

theorem hasEOF_next {toks : List Token} {pos : Nat} {t : Token}
    (h : HasEOF toks pos) (hget : toks.get? pos = some t) (hne : t.kind ≠ "EOF") :
    HasEOF toks (pos + 1) := by
  obtain ⟨i, u, hpi, hgu, hu⟩ := h
  refine ⟨i, u, ?_, hgu, hu⟩
  rcases Nat.eq_or_lt_of_le hpi with heq | hlt
  · subst heq; rw [hget] at hgu; cases hgu; exact absurd hu hne
  · omega

theorem expectT_good {toks : List Token} {pos : Nat}
    (h : HasEOF toks pos) (kind : String) (hk : kind ≠ "EOF") :
    ParseGood toks pos true (expectT toks pos kind) := by
  obtain ⟨t, hget, hpk⟩ := peekT_ok_of_hasEOF h
  unfold expectT
  rw [hpk]
  by_cases hkind : t.kind = kind
  · simp only [hkind, if_true, ParseGood]
    exact ⟨by omega, hasEOF_next h hget (by rw [hkind]; exact hk)⟩
  · simp [hkind, ParseGood]

theorem parser_expr_total (n : Nat) :
    (∀ toks pos, HasEOF toks pos → 3 * (toks.length - pos) ≤ n →
      ParseGood toks pos true (termF n toks pos))
    ∧ (∀ toks pos, HasEOF toks pos → 3 * (toks.length - pos) + 1 ≤ n →
      ParseGood toks pos true (exprF n toks pos))
    ∧ (∀ toks (left : Expr) pos, HasEOF toks pos → 3 * (toks.length - pos) ≤ n + 2 →
      ParseGood toks pos false (exprLoopF n toks left pos)) := by
  induction n with
  | zero =>
    refine ⟨fun toks pos h hb => ?_, fun toks pos h hb => ?_,
      fun toks left pos h hb => ?_⟩
    all_goals (have hq := hasEOF_pos_lt h; omega)
  | succ n ih =>
    obtain ⟨ihT, ihE, ihL⟩ := ih
    refine ⟨fun toks pos h hb => ?_, fun toks pos h hb => ?_,
      fun toks left pos h hb => ?_⟩
    · -- termF
      have hlt := hasEOF_pos_lt h
      obtain ⟨t, hget, hpk⟩ := peekT_ok_of_hasEOF h
      simp only [termF, hpk]
      by_cases h1 : t.kind = "NUMBER"
      · rw [if_pos h1]
        simp only [ParseGood]
        exact ⟨by omega, hasEOF_next h hget (by simp [h1])⟩
      by_cases h2 : t.kind = "IDENTIFIER"
      · rw [if_neg h1, if_pos h2]
        simp only [ParseGood]
        exact ⟨by omega, hasEOF_next h hget (by simp [h2])⟩
      by_cases h3 : t.kind = "LPAREN"
      · rw [if_neg h1, if_neg h2, if_pos h3]
        have hEOF1 : HasEOF toks (pos + 1) := hasEOF_next h hget (by simp [h3])
        have hE := ihE toks (pos + 1) hEOF1 (by omega)
        cases hEr : exprF n toks (pos + 1) with
        | error e =>
          rw [hEr] at hE
          simp only [ParseGood] at hE
          simp only [hEr, ParseGood]
          exact hE
        | ok p =>
          obtain ⟨e, pos1⟩ := p
          rw [hEr] at hE
          simp only [ParseGood] at hE
          obtain ⟨hlt1, hEOF2⟩ := hE
          simp only [hEr]
          have hX := expectT_good hEOF2 "RPAREN" (by decide)
          cases hXr : expectT toks pos1 "RPAREN" with
          | error e2 =>
            rw [hXr] at hX
            simp only [ParseGood] at hX
            simp only [hXr, ParseGood]
            exact hX
          | ok q =>
            obtain ⟨t2, pos2⟩ := q
            rw [hXr] at hX
            simp only [ParseGood] at hX
            simp only [hXr, ParseGood]
            exact ⟨by omega, hX.2⟩
      · rw [if_neg h1, if_neg h2, if_neg h3]
        simp only [ParseGood]
        exact ⟨by simp, by simp⟩
    · -- exprF
      have hlt := hasEOF_pos_lt h
      simp only [exprF]
      have hT := ihT toks pos h (by omega)
      cases hTr : termF n toks pos with
      | error e =>
        rw [hTr] at hT
        simp only [ParseGood] at hT
        simp only [hTr, ParseGood]
        exact hT
      | ok p =>
        obtain ⟨left, pos1⟩ := p
        rw [hTr] at hT
        simp only [ParseGood] at hT
        obtain ⟨hlt1, hEOF1⟩ := hT
        have hlt1' := hasEOF_pos_lt hEOF1
        simp only [hTr]
        have hL := ihL toks left pos1 hEOF1 (by omega)
        cases hLr : exprLoopF n toks left pos1 with
        | error e =>
          rw [hLr] at hL
          simp only [ParseGood] at hL
          simp only [hLr, ParseGood]
          exact hL
        | ok q =>
          obtain ⟨e, pos2⟩ := q
          rw [hLr] at hL
          simp only [ParseGood] at hL
          simp only [hLr, ParseGood]
          exact ⟨by omega, hL.2⟩
    · -- exprLoopF
      have hlt := hasEOF_pos_lt h
      obtain ⟨t, hget, hpk⟩ := peekT_ok_of_hasEOF h
      simp only [exprLoopF, hpk]
      by_cases h1 : t.kind = "OPERATOR"
      · rw [if_pos h1]
        have hEOF1 : HasEOF toks (pos + 1) := hasEOF_next h hget (by simp [h1])
        have hlt1 := hasEOF_pos_lt hEOF1
        have hT := ihT toks (pos + 1) hEOF1 (by omega)
        cases hTr : termF n toks (pos + 1) with
        | error e =>
          rw [hTr] at hT
          simp only [ParseGood] at hT
          simp only [hTr, ParseGood]
          exact hT
        | ok p =>
          obtain ⟨right, pos1⟩ := p
          rw [hTr] at hT
          simp only [ParseGood] at hT
          obtain ⟨hlt2, hEOF2⟩ := hT
          simp only [hTr]
          have hL := ihL toks (.binOp t.value left right) pos1 hEOF2 (by omega)
          cases hLr : exprLoopF n toks (.binOp t.value left right) pos1 with
          | error e =>
            rw [hLr] at hL
            simp only [ParseGood] at hL
            simp only [hLr, ParseGood]
            exact hL
          | ok q =>
            obtain ⟨e, pos2⟩ := q
            rw [hLr] at hL
            simp only [ParseGood] at hL
            simp only [hLr, ParseGood]
            exact ⟨by omega, hL.2⟩
      · rw [if_neg h1]
        simp only [ParseGood]
        exact ⟨by omega, h⟩

theorem variableDeclarationF_good (n : Nat) (toks : List Token) (pos : Nat)
    (h : HasEOF toks pos) (hb : 3 * (toks.length - pos) ≤ n + 1) :
    ParseGood toks pos true (variableDeclarationF n toks pos) := by
  have hlt := hasEOF_pos_lt h
  cases n with
  | zero => omega
  | succ n =>
    simp only [variableDeclarationF]
    have hX1 := expectT_good h "IDENTIFIER" (by decide)
    cases hX1r : expectT toks pos "IDENTIFIER" with
    | error e =>
      rw [hX1r] at hX1; simp only [ParseGood] at hX1
      simp only [hX1r, ParseGood]; exact hX1
    | ok p1 =>
      obtain ⟨t1, pos1⟩ := p1
      rw [hX1r] at hX1; simp only [ParseGood] at hX1
      obtain ⟨hp1, hE1⟩ := hX1
      have hlt1 := hasEOF_pos_lt hE1
      simp only [hX1r]
      have hX2 := expectT_good hE1 "IDENTIFIER" (by decide)
      cases hX2r : expectT toks pos1 "IDENTIFIER" with
      | error e =>
        rw [hX2r] at hX2; simp only [ParseGood] at hX2
        simp only [hX2r, ParseGood]; exact hX2
      | ok p2 =>
        obtain ⟨t2, pos2⟩ := p2
        rw [hX2r] at hX2; simp only [ParseGood] at hX2
        obtain ⟨hp2, hE2⟩ := hX2
        have hlt2 := hasEOF_pos_lt hE2
        simp only [hX2r]
        have hX3 := expectT_good hE2 "ASSIGN" (by decide)
        cases hX3r : expectT toks pos2 "ASSIGN" with
        | error e =>
          rw [hX3r] at hX3; simp only [ParseGood] at hX3
          simp only [hX3r, ParseGood]; exact hX3
        | ok p3 =>
          obtain ⟨t3, pos3⟩ := p3
          rw [hX3r] at hX3; simp only [ParseGood] at hX3
          obtain ⟨hp3, hE3⟩ := hX3
          have hlt3 := hasEOF_pos_lt hE3
          simp only [hX3r]
          have hE := (parser_expr_total n).2.1 toks pos3 hE3 (by omega)
          cases hEr : exprF n toks pos3 with
          | error e =>
            rw [hEr] at hE; simp only [ParseGood] at hE
            simp only [hEr, ParseGood]; exact hE
          | ok p4 =>
            obtain ⟨value, pos4⟩ := p4
            rw [hEr] at hE; simp only [ParseGood] at hE
            obtain ⟨hp4, hE4⟩ := hE
            simp only [hEr]
            have hX5 := expectT_good hE4 "SEMICOLON" (by decide)
            cases hX5r : expectT toks pos4 "SEMICOLON" with
            | error e =>
              rw [hX5r] at hX5; simp only [ParseGood] at hX5
              simp only [hX5r, ParseGood]; exact hX5
            | ok p5 =>
              obtain ⟨t5, pos5⟩ := p5
              rw [hX5r] at hX5; simp only [ParseGood] at hX5
              simp only [hX5r, ParseGood]
              exact ⟨by omega, hX5.2⟩

theorem printStatementF_good (n : Nat) (toks : List Token) (pos : Nat)
    (h : HasEOF toks pos) (hb : 3 * (toks.length - pos) ≤ n + 1) :
    ParseGood toks pos true (printStatementF n toks pos) := by
  have hlt := hasEOF_pos_lt h
  cases n with
  | zero => omega
  | succ n =>
    simp only [printStatementF]
    have hX1 := expectT_good h "IDENTIFIER" (by decide)
    cases hX1r : expectT toks pos "IDENTIFIER" with
    | error e =>
      rw [hX1r] at hX1; simp only [ParseGood] at hX1
      simp only [hX1r, ParseGood]; exact hX1
    | ok p1 =>
      obtain ⟨t1, pos1⟩ := p1
      rw [hX1r] at hX1; simp only [ParseGood] at hX1
      obtain ⟨hp1, hE1⟩ := hX1
      have hlt1 := hasEOF_pos_lt hE1
      simp only [hX1r]
      have hE := (parser_expr_total n).2.1 toks pos1 hE1 (by omega)
      cases hEr : exprF n toks pos1 with
      | error e =>
        rw [hEr] at hE; simp only [ParseGood] at hE
        simp only [hEr, ParseGood]; exact hE
      | ok p2 =>
        obtain ⟨value, pos2⟩ := p2
        rw [hEr] at hE; simp only [ParseGood] at hE
        obtain ⟨hp2, hE2⟩ := hE
        simp only [hEr]
        have hX3 := expectT_good hE2 "SEMICOLON" (by decide)
        cases hX3r : expectT toks pos2 "SEMICOLON" with
        | error e =>
          rw [hX3r] at hX3; simp only [ParseGood] at hX3
          simp only [hX3r, ParseGood]; exact hX3
        | ok p3 =>
          obtain ⟨t3, pos3⟩ := p3
          rw [hX3r] at hX3; simp only [ParseGood] at hX3
          simp only [hX3r, ParseGood]
          exact ⟨by omega, hX3.2⟩

theorem statementF_good (n : Nat) (toks : List Token) (pos : Nat)
    (h : HasEOF toks pos) (hb : 3 * (toks.length - pos) ≤ n) :
    ParseGood toks pos true (statementF n toks pos) := by
  have hlt := hasEOF_pos_lt h
  cases n with
  | zero => omega
  | succ n =>
    obtain ⟨t, hget, hpk⟩ := peekT_ok_of_hasEOF h
    simp only [statementF, hpk]
    by_cases hc1 : t.kind = "IDENTIFIER" ∧ t.value = .vstr "var"
    · rw [if_pos hc1]
      exact variableDeclarationF_good n toks pos h (by omega)
    by_cases hc2 : t.kind = "IDENTIFIER" ∧ t.value = .vstr "print"
    · rw [if_neg hc1, if_pos hc2]
      exact printStatementF_good n toks pos h (by omega)
    · rw [if_neg hc1, if_neg hc2]
      simp only [ParseGood]
      exact ⟨by simp, by simp⟩

theorem parseLoopF_good : ∀ (n : Nat) (toks : List Token) (pos : Nat),
    HasEOF toks pos → 3 * (toks.length - pos) + 2 ≤ n →
    ParseGood toks pos false (parseLoopF n toks pos) := by
  intro n
  induction n with
  | zero =>
    intro toks pos h hb
    omega
  | succ n ih =>
    intro toks pos h hb
    have hlt := hasEOF_pos_lt h
    obtain ⟨t, hget, hpk⟩ := peekT_ok_of_hasEOF h
    simp only [parseLoopF, hpk]
    by_cases heof : t.kind = "EOF"
    · rw [if_pos heof]
      simp only [ParseGood]
      exact ⟨by omega, h⟩
    · rw [if_neg heof]
      have hS := statementF_good n toks pos h (by omega)
      cases hSr : statementF n toks pos with
      | error e =>
        rw [hSr] at hS; simp only [ParseGood] at hS
        simp only [hSr, ParseGood]; exact hS
      | ok p =>
        obtain ⟨s, pos1⟩ := p
        rw [hSr] at hS; simp only [ParseGood] at hS
        obtain ⟨hp1, hE1⟩ := hS
        simp only [hSr]
        have hP := ih toks pos1 hE1 (by omega)
        cases hPr : parseLoopF n toks pos1 with
        | error e =>
          rw [hPr] at hP; simp only [ParseGood] at hP
          simp only [hPr, ParseGood]; exact hP
        | ok q =>
          obtain ⟨ss, pos2⟩ := q
          rw [hPr] at hP; simp only [ParseGood] at hP
          simp only [hPr, ParseGood]
          exact ⟨by omega, hP.2⟩

/-- C10: for every finite, EOF-terminated token sequence, `parse`
terminates with a definite outcome: a statement list, or a genuine
`SyntaxError` — never the embedding's out-of-fuel marker (so the
Python loop cannot run forever) and never an `IndexError` from
`self.tokens[self.pos]`. -/
theorem parse_terminates (toks : List Token) (h : EOFTerminated toks) :
    (∃ ss, parse toks = .ok ss)
    ∨ (∃ e, parse toks = .error e ∧ e ≠ .fuelOut ∧ e ≠ .indexError) := by
  obtain ⟨t, hlast, hkind⟩ := h
  have h0 : HasEOF toks 0 := by
    refine ⟨toks.length - 1, t, Nat.zero_le _, ?_, hkind⟩
    rw [List.get?_eq_getElem?]
    rwa [← List.getLast?_eq_getElem?]
  have hP := parseLoopF_good (parseFuel toks) toks 0 h0 (by simp [parseFuel])
  unfold parse
  cases hPr : parseLoopF (parseFuel toks) toks 0 with
  | error e =>
    rw [hPr] at hP; simp only [ParseGood] at hP
    exact Or.inr ⟨e, rfl, hP⟩
  | ok q =>
    obtain ⟨ss, pos⟩ := q
    exact Or.inl ⟨ss, rfl⟩

theorem parse_terminates_witness :
    (∃ ss, parse [eofToken] = .ok ss)
    ∨ (∃ e, parse [eofToken] = .error e ∧ e ≠ .fuelOut ∧ e ≠ .indexError) :=
  parse_terminates [eofToken] ⟨eofToken, rfl, rfl⟩


theorem TokensWF_nil : TokensWF [] := fun t ht => absurd ht (List.not_mem_nil t)

theorem TokensWF_cons {t : Token} {ts : List Token}
    (h1 : t.kind = "OPERATOR" → t.value ∈ opStrings) (h2 : TokensWF ts) :
    TokensWF (t :: ts) := by
  intro u hu hk
  rcases List.mem_cons.mp hu with rfl | hmem
  · exact h1 hk
  · exact h2 u hmem hk

theorem TokensWF_append {ts1 ts2 : List Token}
    (h1 : TokensWF ts1) (h2 : TokensWF ts2) : TokensWF (ts1 ++ ts2) := by
  intro u hu hk
  rcases List.mem_append.mp hu with hmem | hmem
  · exact h1 u hmem hk
  · exact h2 u hmem hk

theorem tokenizeCharsF_wf : ∀ (n : Nat) (cs : List Char) (ts : List Token),
    tokenizeCharsF n cs = .ok ts → TokensWF ts := by
  intro n
  induction n with
  | zero =>
    intro cs ts h
    cases cs with
    | nil => cases h; exact TokensWF_nil
    | cons c cs => cases h
  | succ n ih =>
    intro cs ts h
    cases cs with
    | nil => cases h; exact TokensWF_nil
    | cons c cs =>
      simp only [tokenizeCharsF] at h
      split_ifs at h with h1 h2 h3 h4 h5 h6 h7 h8 h9
      · cases hr : tokenizeCharsF n (cs.dropWhile Char.isDigit) with
        | error e => rw [hr] at h; cases h
        | ok ts0 =>
          rw [hr] at h; cases h
          exact TokensWF_cons (fun hk => by simp at hk) (ih _ _ hr)
      · cases hr : tokenizeCharsF n (cs.dropWhile isWordChar) with
        | error e => rw [hr] at h; cases h
        | ok ts0 =>
          rw [hr] at h; cases h
          exact TokensWF_cons (fun hk => by simp at hk) (ih _ _ hr)
      · cases hr : tokenizeCharsF n cs with
        | error e => rw [hr] at h; cases h
        | ok ts0 =>
          rw [hr] at h; cases h
          exact TokensWF_cons (fun hk => by simp at hk) (ih _ _ hr)
      · cases hr : tokenizeCharsF n cs with
        | error e => rw [hr] at h; cases h
        | ok ts0 =>
          rw [hr] at h; cases h
          exact TokensWF_cons (fun hk => by simp at hk) (ih _ _ hr)
      · -- OPERATOR
        cases hr : tokenizeCharsF n cs with
        | error e => rw [hr] at h; cases h
        | ok ts0 =>
          rw [hr] at h; cases h
          refine TokensWF_cons (fun _ => ?_) (ih _ _ hr)
          rcases Bool.or_eq_true_iff.mp h5 with hh | hh
          · rcases Bool.or_eq_true_iff.mp hh with hh | hh
            · rcases Bool.or_eq_true_iff.mp hh with hh | hh <;>
              · rw [of_decide_eq_true hh]; decide
            · rw [of_decide_eq_true hh]; decide
          · rw [of_decide_eq_true hh]; decide
      · cases hr : tokenizeCharsF n cs with
        | error e => rw [hr] at h; cases h
        | ok ts0 =>
          rw [hr] at h; cases h
          exact TokensWF_cons (fun hk => by simp at hk) (ih _ _ hr)
      · cases hr : tokenizeCharsF n cs with
        | error e => rw [hr] at h; cases h
        | ok ts0 =>
          rw [hr] at h; cases h
          exact TokensWF_cons (fun hk => by simp at hk) (ih _ _ hr)
      · exact ih _ _ h
      · exact ih _ _ h

theorem tokenize_wf {code : String} {toks : List Token}
    (h : tokenize [] code = .ok toks) : TokensWF toks := by
  unfold tokenize at h
  cases htc : tokenizeChars code.data with
  | error e => rw [htc] at h; cases h
  | ok ts =>
    rw [htc] at h; cases h
    simp only [List.nil_append]
    exact TokensWF_append (tokenizeCharsF_wf _ _ _ htc)
      (TokensWF_cons (fun hk => absurd hk (by decide)) TokensWF_nil)

theorem peekT_ok_get {toks : List Token} {pos : Nat} {t : Token}
    (h : peekT toks pos = .ok t) : toks.get? pos = some t := by
  unfold peekT at h
  cases hg : toks.get? pos with
  | none => rw [hg] at h; cases h
  | some u => rw [hg] at h; cases h; rfl

theorem parser_expr_wf (n : Nat) (toks : List Token) (hW : TokensWF toks) :
    (∀ pos e pos', termF n toks pos = .ok (e, pos') → ExprWF e)
    ∧ (∀ pos e pos', exprF n toks pos = .ok (e, pos') → ExprWF e)
    ∧ (∀ (left : Expr) pos e pos', ExprWF left →
        exprLoopF n toks left pos = .ok (e, pos') → ExprWF e) := by
  induction n with
  | zero =>
    refine ⟨fun pos e pos' h => ?_, fun pos e pos' h => ?_,
      fun l pos e pos' hl h => ?_⟩ <;> simp [termF, exprF, exprLoopF] at h
  | succ n ih =>
    obtain ⟨ihT, ihE, ihL⟩ := ih
    refine ⟨fun pos e pos' h => ?_, fun pos e pos' h => ?_,
      fun left pos e pos' hl h => ?_⟩
    · -- termF
      simp only [termF] at h
      cases hpk : peekT toks pos with
      | error e0 => rw [hpk] at h; cases h
      | ok t =>
        simp only [hpk] at h
        by_cases h1 : t.kind = "NUMBER"
        · rw [if_pos h1] at h
          simp only [Except.ok.injEq, Prod.mk.injEq] at h
          obtain ⟨rfl, rfl⟩ := h
          rw [h1]
          exact ExprWF.leafNum
        by_cases h2 : t.kind = "IDENTIFIER"
        · rw [if_neg h1, if_pos h2] at h
          simp only [Except.ok.injEq, Prod.mk.injEq] at h
          obtain ⟨rfl, rfl⟩ := h
          rw [h2]
          exact ExprWF.leafIdent
        by_cases h3 : t.kind = "LPAREN"
        · rw [if_neg h1, if_neg h2, if_pos h3] at h
          cases hEr : exprF n toks (pos + 1) with
          | error e0 => rw [hEr] at h; cases h
          | ok p =>
            obtain ⟨e1, pos1⟩ := p
            simp only [hEr] at h
            cases hXr : expectT toks pos1 "RPAREN" with
            | error e0 => rw [hXr] at h; cases h
            | ok q =>
              obtain ⟨t2, pos2⟩ := q
              simp only [hXr] at h
              simp only [Except.ok.injEq, Prod.mk.injEq] at h
              obtain ⟨rfl, rfl⟩ := h
              exact ihE _ _ _ hEr
        · rw [if_neg h1, if_neg h2, if_neg h3] at h
          cases h
    · -- exprF
      simp only [exprF] at h
      cases hTr : termF n toks pos with
      | error e0 => rw [hTr] at h; cases h
      | ok p =>
        obtain ⟨left, pos1⟩ := p
        simp only [hTr] at h
        exact ihL left pos1 e pos' (ihT _ _ _ hTr) h
    · -- exprLoopF
      simp only [exprLoopF] at h
      cases hpk : peekT toks pos with
      | error e0 => rw [hpk] at h; cases h
      | ok t =>
        simp only [hpk] at h
        by_cases h1 : t.kind = "OPERATOR"
        · rw [if_pos h1] at h
          cases hTr : termF n toks (pos + 1) with
          | error e0 => rw [hTr] at h; cases h
          | ok p =>
            obtain ⟨right, pos1⟩ := p
            simp only [hTr] at h
            have hop : t.value ∈ opStrings :=
              hW t (List.get?_mem (peekT_ok_get hpk)) h1
            exact ihL _ _ _ _ (ExprWF.binOp hop hl (ihT _ _ _ hTr)) h
        · rw [if_neg h1] at h
          simp only [Except.ok.injEq, Prod.mk.injEq] at h
          obtain ⟨rfl, rfl⟩ := h
          exact hl

theorem variableDeclarationF_wf {n : Nat} {toks : List Token} (hW : TokensWF toks)
    {pos : Nat} {s : Stmt} {pos' : Nat}
    (h : variableDeclarationF n toks pos = .ok (s, pos')) : StmtWF s := by
  cases n with
  | zero => simp [variableDeclarationF] at h
  | succ n =>
    simp only [variableDeclarationF] at h
    cases hX1 : expectT toks pos "IDENTIFIER" with
    | error e => rw [hX1] at h; cases h
    | ok p1 =>
      obtain ⟨t1, pos1⟩ := p1
      simp only [hX1] at h
      cases hX2 : expectT toks pos1 "IDENTIFIER" with
      | error e => rw [hX2] at h; cases h
      | ok p2 =>
        obtain ⟨t2, pos2⟩ := p2
        simp only [hX2] at h
        cases hX3 : expectT toks pos2 "ASSIGN" with
        | error e => rw [hX3] at h; cases h
        | ok p3 =>
          obtain ⟨t3, pos3⟩ := p3
          simp only [hX3] at h
          cases hEr : exprF n toks pos3 with
          | error e => rw [hEr] at h; cases h
          | ok p4 =>
            obtain ⟨value, pos4⟩ := p4
            simp only [hEr] at h
            cases hX5 : expectT toks pos4 "SEMICOLON" with
            | error e => rw [hX5] at h; cases h
            | ok p5 =>
              obtain ⟨t5, pos5⟩ := p5
              simp only [hX5] at h
              simp only [Except.ok.injEq, Prod.mk.injEq] at h
              obtain ⟨rfl, rfl⟩ := h
              exact StmtWF.varDecl ((parser_expr_wf n toks hW).2.1 _ _ _ hEr)

theorem printStatementF_wf {n : Nat} {toks : List Token} (hW : TokensWF toks)
    {pos : Nat} {s : Stmt} {pos' : Nat}
    (h : printStatementF n toks pos = .ok (s, pos')) : StmtWF s := by
  cases n with
  | zero => simp [printStatementF] at h
  | succ n =>
    simp only [printStatementF] at h
    cases hX1 : expectT toks pos "IDENTIFIER" with
    | error e => rw [hX1] at h; cases h
    | ok p1 =>
      obtain ⟨t1, pos1⟩ := p1
      simp only [hX1] at h
      cases hEr : exprF n toks pos1 with
      | error e => rw [hEr] at h; cases h
      | ok p2 =>
        obtain ⟨value, pos2⟩ := p2
        simp only [hEr] at h
        cases hX3 : expectT toks pos2 "SEMICOLON" with
        | error e => rw [hX3] at h; cases h
        | ok p3 =>
          obtain ⟨t3, pos3⟩ := p3
          simp only [hX3] at h
          simp only [Except.ok.injEq, Prod.mk.injEq] at h
          obtain ⟨rfl, rfl⟩ := h
          exact StmtWF.printS ((parser_expr_wf n toks hW).2.1 _ _ _ hEr)

theorem statementF_wf {n : Nat} {toks : List Token} (hW : TokensWF toks)
    {pos : Nat} {s : Stmt} {pos' : Nat}
    (h : statementF n toks pos = .ok (s, pos')) : StmtWF s := by
  cases n with
  | zero => simp [statementF] at h
  | succ n =>
    simp only [statementF] at h
    cases hpk : peekT toks pos with
    | error e => rw [hpk] at h; cases h
    | ok t =>
      simp only [hpk] at h
      by_cases hc1 : t.kind = "IDENTIFIER" ∧ t.value = .vstr "var"
      · rw [if_pos hc1] at h
        exact variableDeclarationF_wf hW h
      by_cases hc2 : t.kind = "IDENTIFIER" ∧ t.value = .vstr "print"
      · rw [if_neg hc1, if_pos hc2] at h
        exact printStatementF_wf hW h
      · rw [if_neg hc1, if_neg hc2] at h
        cases h

theorem parseLoopF_wf : ∀ {n : Nat} {toks : List Token}, TokensWF toks →
    ∀ {pos : Nat} {ss : List Stmt} {pos' : Nat},
    parseLoopF n toks pos = .ok (ss, pos') → ∀ s ∈ ss, StmtWF s := by
  intro n
  induction n with
  | zero => intro toks hW pos ss pos' h; simp [parseLoopF] at h
  | succ n ih =>
    intro toks hW pos ss pos' h
    simp only [parseLoopF] at h
    cases hpk : peekT toks pos with
    | error e => rw [hpk] at h; cases h
    | ok t =>
      simp only [hpk] at h
      by_cases heof : t.kind = "EOF"
      · rw [if_pos heof] at h
        simp only [Except.ok.injEq, Prod.mk.injEq] at h
        obtain ⟨rfl, rfl⟩ := h
        intro s hs
        exact absurd hs (List.not_mem_nil s)
      · rw [if_neg heof] at h
        cases hSr : statementF n toks pos with
        | error e => rw [hSr] at h; cases h
        | ok p =>
          obtain ⟨s1, pos1⟩ := p
          simp only [hSr] at h
          cases hPr : parseLoopF n toks pos1 with
          | error e => rw [hPr] at h; cases h
          | ok q =>
            obtain ⟨ss1, pos2⟩ := q
            simp only [hPr] at h
            simp only [Except.ok.injEq, Prod.mk.injEq] at h
            obtain ⟨rfl, rfl⟩ := h
            intro s hs
            rcases List.mem_cons.mp hs with rfl | hmem
            · exact statementF_wf hW hSr
            · exact ih hW hPr s hmem

theorem parse_wf {toks : List Token} (hW : TokensWF toks)
    {ss : List Stmt} (h : parse toks = .ok ss) : ∀ s ∈ ss, StmtWF s := by
  unfold parse at h
  cases hPr : parseLoopF (parseFuel toks) toks 0 with
  | error e => rw [hPr] at h; cases h
  | ok q =>
    obtain ⟨ss1, pos⟩ := q
    simp only [hPr] at h
    cases h
    exact parseLoopF_wf hW hPr

theorem pySplit_ALLOC (s : String) : pySplit ("ALLOC " ++ s) = "ALLOC" :: pySplit s := by
  unfold pySplit; rw [String.data_append]; rfl

theorem pySplit_PUSH (s : String) : pySplit ("PUSH " ++ s) = "PUSH" :: pySplit s := by
  unfold pySplit; rw [String.data_append]; rfl

theorem pySplit_LOAD (s : String) : pySplit ("LOAD " ++ s) = "LOAD" :: pySplit s := by
  unfold pySplit; rw [String.data_append]; rfl

theorem pySplit_STORE (s : String) : pySplit ("STORE " ++ s) = "STORE" :: pySplit s := by
  unfold pySplit; rw [String.data_append]; rfl

theorem pySplit_OP (s : String) : pySplit ("OP " ++ s) = "OP" :: pySplit s := by
  unfold pySplit; rw [String.data_append]; rfl

theorem stepParts_ALLOC_gen (st : VMState) (args : List String) :
    stepParts st ("ALLOC" :: args) = match args with
      | [] => .error .indexError
      | name :: _ =>
          .ok ({ st with vars := fun k => if k = name then some .vnone else st.vars k }, []) := by
  cases args <;> rfl

theorem stepParts_PUSH_gen (st : VMState) (args : List String) :
    stepParts st ("PUSH" :: args) = match args with
      | [] => .error .indexError
      | v :: _ => match parseIntStr v with
        | none => .error .valueError
        | some n => .ok ({ st with stack := .vint n :: st.stack }, []) := by
  cases args <;> rfl

theorem stepParts_LOAD_gen (st : VMState) (args : List String) :
    stepParts st ("LOAD" :: args) = match args with
      | [] => .error .indexError
      | name :: _ =>
          .ok ({ st with
                  stack := (match st.vars name with
                            | some v => v
                            | none => .vnone) :: st.stack }, []) := by
  cases args <;> rfl

theorem stepParts_STORE_gen (st : VMState) (args : List String) :
    stepParts st ("STORE" :: args) = match args with
      | [] => .error .indexError
      | name :: _ => match st.stack with
        | [] => .error .indexError
        | v :: rest =>
            .ok ({ stack := rest,
                   vars := fun k => if k = name then some v else st.vars k }, []) := by
  cases args <;> rfl

theorem stepParts_PRINT_gen (st : VMState) :
    stepParts st ["PRINT"] = match st.stack with
      | [] => .error .indexError
      | v :: rest => .ok ({ st with stack := rest }, [v]) := rfl

theorem stepParts_OP_add (st : VMState) :
    stepParts st ["OP", "+"] = match st.stack with
      | [] => .error .indexError
      | right :: s1 => match s1 with
        | [] => .error .indexError
        | left :: s => match pyAdd left right with
          | .error e => .error e
          | .ok v => .ok ({ st with stack := v :: s }, []) := rfl

theorem stepParts_OP_sub (st : VMState) :
    stepParts st ["OP", "-"] = match st.stack with
      | [] => .error .indexError
      | right :: s1 => match s1 with
        | [] => .error .indexError
        | left :: s => match pySub left right with
          | .error e => .error e
          | .ok v => .ok ({ st with stack := v :: s }, []) := rfl

theorem stepParts_OP_mul (st : VMState) :
    stepParts st ["OP", "*"] = match st.stack with
      | [] => .error .indexError
      | right :: s1 => match s1 with
        | [] => .error .indexError
        | left :: s => match pyMul left right with
          | .error e => .error e
          | .ok v => .ok ({ st with stack := v :: s }, []) := rfl

theorem stepParts_OP_div (st : VMState) :
    stepParts st ["OP", "/"] = match st.stack with
      | [] => .error .indexError
      | right :: s1 => match s1 with
        | [] => .error .indexError
        | left :: s => match pyDiv left right with
          | .error e => .error e
          | .ok v => .ok ({ st with stack := v :: s }, []) := rfl

theorem execute_singleton (st : VMState) (i : String) :
    execute st [i] = match execute_instruction st i with
      | .error e => .error e
      | .ok (s1, o1) => .ok (s1, o1 ++ []) := by
  cases h : execute_instruction st i with
  | error e => simp [execute, h]
  | ok p => obtain ⟨s1, o1⟩ := p; simp [execute, h]

theorem execute_append : ∀ (l1 l2 : List String) (st : VMState),
    execute st (l1 ++ l2) = match execute st l1 with
      | .error e => .error e
      | .ok (s1, o1) => match execute s1 l2 with
        | .error e => .error e
        | .ok (s2, o2) => .ok (s2, o1 ++ o2) := by
  intro l1
  induction l1 with
  | nil =>
    intro l2 st
    cases h : execute st l2 with
    | error e => simp [execute, h]
    | ok p => obtain ⟨s2, o2⟩ := p; simp [execute, h]
  | cons i is ih =>
    intro l2 st
    cases hi : execute_instruction st i with
    | error e => simp [execute, hi]
    | ok p =>
      obtain ⟨s1, o1⟩ := p
      cases hA : execute s1 is with
      | error e => simp [execute, hi, ih, hA]
      | ok q =>
        obtain ⟨s2, o2⟩ := q
        cases hB : execute s2 l2 with
        | error e => simp [execute, hi, ih, hA, hB]
        | ok r =>
          obtain ⟨s3, o3⟩ := r
          simp [execute, hi, ih, hA, hB, List.append_assoc]

theorem genE_exec {e : Expr} (hwf : ExprWF e) :
    ∀ code : List String, generate_expression e = .ok code →
    ∀ (st st' : VMState) (out : List Value),
      execute st code = .ok (st', out) →
      ∃ v, st'.stack = v :: st.stack := by
  induction hwf with
  | @leafNum v =>
    intro code hc st st' out h
    have hc' : (Except.ok ["PUSH " ++ TokVal.toName v]
        : Except CodeGenError (List String)) = .ok code := hc
    cases hc'
    have h' : execute st ["PUSH " ++ TokVal.toName v] = .ok (st', out) := h
    rw [execute_singleton] at h'
    have hsp : execute_instruction st ("PUSH " ++ TokVal.toName v)
        = stepParts st ("PUSH" :: pySplit (TokVal.toName v)) := by
      unfold execute_instruction; rw [pySplit_PUSH]
    rw [hsp, stepParts_PUSH_gen] at h'
    cases hargs : pySplit (TokVal.toName v) with
    | nil => simp only [hargs] at h'; cases h'
    | cons v0 rest =>
      simp only [hargs] at h'
      cases hp : parseIntStr v0 with
      | none => simp only [hp] at h'; cases h'
      | some nn =>
        simp only [hp] at h'
        simp only [Except.ok.injEq, Prod.mk.injEq] at h'
        obtain ⟨rfl, rfl⟩ := h'
        exact ⟨.vint nn, rfl⟩
  | @leafIdent v =>
    intro code hc st st' out h
    have hc' : (Except.ok ["LOAD " ++ TokVal.toName v]
        : Except CodeGenError (List String)) = .ok code := hc
    cases hc'
    have h' : execute st ["LOAD " ++ TokVal.toName v] = .ok (st', out) := h
    rw [execute_singleton] at h'
    have hsp : execute_instruction st ("LOAD " ++ TokVal.toName v)
        = stepParts st ("LOAD" :: pySplit (TokVal.toName v)) := by
      unfold execute_instruction; rw [pySplit_LOAD]
    rw [hsp, stepParts_LOAD_gen] at h'
    cases hargs : pySplit (TokVal.toName v) with
    | nil => simp only [hargs] at h'; cases h'
    | cons v0 rest =>
      simp only [hargs] at h'
      simp only [Except.ok.injEq, Prod.mk.injEq] at h'
      obtain ⟨rfl, rfl⟩ := h'
      exact ⟨_, rfl⟩
  | @binOp op l r hop hl hr ihl ihr =>
    intro code hc st st' out h
    have hc' : (match generate_expression l with
        | .error e0 => Except.error e0
        | .ok gl =>
          match generate_expression r with
          | .error e0 => Except.error e0
          | .ok gr =>
              Except.ok (gl ++ gr ++ ["OP " ++ TokVal.toName op])) = .ok code := hc
    cases hgl : generate_expression l with
    | error e0 => simp only [hgl] at hc'; cases hc'
    | ok gl =>
      simp only [hgl] at hc'
      cases hgr : generate_expression r with
      | error e0 => simp only [hgr] at hc'; cases hc'
      | ok gr =>
        simp only [hgr] at hc'
        cases hc'
        have h' : execute st ((gl ++ gr)
            ++ ["OP " ++ TokVal.toName op]) = .ok (st', out) := h
        rw [List.append_assoc, execute_append] at h'
        cases hL : execute st gl with
        | error e => simp only [hL] at h'; cases h'
        | ok p =>
          obtain ⟨s1, o1⟩ := p
          simp only [hL] at h'
          rw [execute_append] at h'
          cases hR : execute s1 gr with
          | error e => simp only [hR] at h'; cases h'
          | ok q =>
            obtain ⟨s2, o2⟩ := q
            simp only [hR] at h'
            obtain ⟨a, ha⟩ := ihl gl hgl st s1 o1 hL
            obtain ⟨b, hb⟩ := ihr gr hgr s1 s2 o2 hR
            simp only [opStrings, List.mem_cons, List.not_mem_nil, or_false] at hop
            rcases hop with rfl | rfl | rfl | rfl
            · cases hS : execute s2 ["OP " ++ TokVal.toName (TokVal.vstr "+")] with
              | error e => simp only [hS] at h'; cases h'
              | ok r2 =>
                obtain ⟨s3, o3⟩ := r2
                simp only [hS] at h'
                simp only [Except.ok.injEq, Prod.mk.injEq] at h'
                obtain ⟨rfl, rfl⟩ := h'
                rw [execute_singleton] at hS
                have hsp : execute_instruction s2 ("OP " ++ TokVal.toName (TokVal.vstr "+"))
                    = stepParts s2 ["OP", "+"] := rfl
                rw [hsp, stepParts_OP_add] at hS
                simp only [hb, ha] at hS
                cases hOp : pyAdd a b with
                | error e => simp only [hOp] at hS; cases hS
                | ok v =>
                  simp only [hOp] at hS
                  simp only [Except.ok.injEq, Prod.mk.injEq] at hS
                  obtain ⟨rfl, rfl⟩ := hS
                  exact ⟨v, rfl⟩
            · cases hS : execute s2 ["OP " ++ TokVal.toName (TokVal.vstr "-")] with
              | error e => simp only [hS] at h'; cases h'
              | ok r2 =>
                obtain ⟨s3, o3⟩ := r2
                simp only [hS] at h'
                simp only [Except.ok.injEq, Prod.mk.injEq] at h'
                obtain ⟨rfl, rfl⟩ := h'
                rw [execute_singleton] at hS
                have hsp : execute_instruction s2 ("OP " ++ TokVal.toName (TokVal.vstr "-"))
                    = stepParts s2 ["OP", "-"] := rfl
                rw [hsp, stepParts_OP_sub] at hS
                simp only [hb, ha] at hS
                cases hOp : pySub a b with
                | error e => simp only [hOp] at hS; cases hS
                | ok v =>
                  simp only [hOp] at hS
                  simp only [Except.ok.injEq, Prod.mk.injEq] at hS
                  obtain ⟨rfl, rfl⟩ := hS
                  exact ⟨v, rfl⟩
            · cases hS : execute s2 ["OP " ++ TokVal.toName (TokVal.vstr "*")] with
              | error e => simp only [hS] at h'; cases h'
              | ok r2 =>
                obtain ⟨s3, o3⟩ := r2
                simp only [hS] at h'
                simp only [Except.ok.injEq, Prod.mk.injEq] at h'
                obtain ⟨rfl, rfl⟩ := h'
                rw [execute_singleton] at hS
                have hsp : execute_instruction s2 ("OP " ++ TokVal.toName (TokVal.vstr "*"))
                    = stepParts s2 ["OP", "*"] := rfl
                rw [hsp, stepParts_OP_mul] at hS
                simp only [hb, ha] at hS
                cases hOp : pyMul a b with
                | error e => simp only [hOp] at hS; cases hS
                | ok v =>
                  simp only [hOp] at hS
                  simp only [Except.ok.injEq, Prod.mk.injEq] at hS
                  obtain ⟨rfl, rfl⟩ := hS
                  exact ⟨v, rfl⟩
            · cases hS : execute s2 ["OP " ++ TokVal.toName (TokVal.vstr "/")] with
              | error e => simp only [hS] at h'; cases h'
              | ok r2 =>
                obtain ⟨s3, o3⟩ := r2
                simp only [hS] at h'
                simp only [Except.ok.injEq, Prod.mk.injEq] at h'
                obtain ⟨rfl, rfl⟩ := h'
                rw [execute_singleton] at hS
                have hsp : execute_instruction s2 ("OP " ++ TokVal.toName (TokVal.vstr "/"))
                    = stepParts s2 ["OP", "/"] := rfl
                rw [hsp, stepParts_OP_div] at hS
                simp only [hb, ha] at hS
                cases hOp : pyDiv a b with
                | error e => simp only [hOp] at hS; cases hS
                | ok v =>
                  simp only [hOp] at hS
                  simp only [Except.ok.injEq, Prod.mk.injEq] at hS
                  obtain ⟨rfl, rfl⟩ := hS
                  exact ⟨v, rfl⟩

theorem execute_cons (st : VMState) (i : String) (is : List String) :
    execute st (i :: is) = match execute_instruction st i with
      | .error e => .error e
      | .ok (s1, o1) => match execute s1 is with
        | .error e => .error e
        | .ok (s2, o2) => .ok (s2, o1 ++ o2) := rfl

theorem genS_exec {s : Stmt} (hwf : StmtWF s) {code : List String}
    (hg : generate_statement s = .ok code) :
    ∀ (st st' : VMState) (out : List Value),
      execute st code = .ok (st', out) → st'.stack = st.stack := by
  cases hwf with
  | @varDecl name e hE =>
    intro st st' out h
    have hg' : (match generate_expression e with
        | .error e0 => Except.error e0
        | .ok gcode => Except.ok (["ALLOC " ++ TokVal.toName name]
            ++ gcode ++ ["STORE " ++ TokVal.toName name])) = .ok code := hg
    cases hge : generate_expression e with
    | error e0 => simp only [hge] at hg'; cases hg'
    | ok gcode =>
      simp only [hge] at hg'
      have hco : (["ALLOC " ++ TokVal.toName name] ++ gcode
          ++ ["STORE " ++ TokVal.toName name]) = code := by cases hg'; rfl
      subst hco
      rw [List.append_assoc, List.singleton_append, execute_cons] at h
      have hAi : execute_instruction st ("ALLOC " ++ TokVal.toName name)
          = stepParts st ("ALLOC" :: pySplit (TokVal.toName name)) := by
        unfold execute_instruction; rw [pySplit_ALLOC]
      rw [hAi, stepParts_ALLOC_gen] at h
      cases hargs : pySplit (TokVal.toName name) with
      | nil => simp only [hargs] at h; cases h
      | cons n0 rest0 =>
        simp only [hargs] at h
        rw [execute_append] at h
        cases hEx : execute { st with
            vars := fun k => if k = n0 then some .vnone else st.vars k }
            gcode with
        | error e0 => simp only [hEx] at h; cases h
        | ok p =>
          obtain ⟨s2, o2⟩ := p
          simp only [hEx] at h
          obtain ⟨v, hv⟩ := genE_exec hE gcode hge _ s2 o2 hEx
          cases hS : execute s2 ["STORE " ++ TokVal.toName name] with
          | error e0 => simp only [hS] at h; cases h
          | ok q =>
            obtain ⟨s3, o3⟩ := q
            simp only [hS] at h
            simp only [Except.ok.injEq, Prod.mk.injEq] at h
            obtain ⟨rfl, rfl⟩ := h
            rw [execute_singleton] at hS
            have hSi : execute_instruction s2 ("STORE " ++ TokVal.toName name)
                = stepParts s2 ("STORE" :: pySplit (TokVal.toName name)) := by
              unfold execute_instruction; rw [pySplit_STORE]
            rw [hSi] at hS
            simp only [hargs, stepParts_STORE_gen] at hS
            simp only [hv] at hS
            simp only [Except.ok.injEq, Prod.mk.injEq] at hS
            obtain ⟨rfl, rfl⟩ := hS
            rfl
  | @printS e hE =>
    intro st st' out h
    have hg' : (match generate_expression e with
        | .error e0 => Except.error e0
        | .ok gcode => Except.ok (gcode ++ ["PRINT"])) = .ok code := hg
    cases hge : generate_expression e with
    | error e0 => simp only [hge] at hg'; cases hg'
    | ok gcode =>
      simp only [hge] at hg'
      have hco : (gcode ++ ["PRINT"]) = code := by cases hg'; rfl
      subst hco
      rw [execute_append] at h
      cases hEx : execute st gcode with
      | error e0 => simp only [hEx] at h; cases h
      | ok p =>
        obtain ⟨s1, o1⟩ := p
        simp only [hEx] at h
        obtain ⟨v, hv⟩ := genE_exec hE gcode hge st s1 o1 hEx
        cases hS : execute s1 ["PRINT"] with
        | error e0 => simp only [hS] at h; cases h
        | ok q =>
          obtain ⟨s2, o2⟩ := q
          simp only [hS] at h
          simp only [Except.ok.injEq, Prod.mk.injEq] at h
          obtain ⟨rfl, rfl⟩ := h
          rw [execute_singleton] at hS
          have hPi : execute_instruction s1 "PRINT" = stepParts s1 ["PRINT"] := rfl
          rw [hPi, stepParts_PRINT_gen] at hS
          simp only [hv] at hS
          simp only [Except.ok.injEq, Prod.mk.injEq] at hS
          obtain ⟨rfl, rfl⟩ := hS
          rfl

theorem generate_exec : ∀ (stmts : List Stmt), (∀ s ∈ stmts, StmtWF s) →
    ∀ (ins : List String), generate [] stmts = .ok ins →
    ∀ (st st' : VMState) (out : List Value), execute st ins = .ok (st', out) →
    st'.stack = st.stack := by
  intro stmts
  induction stmts with
  | nil =>
    intro _ ins hg st st' out h
    simp only [generate] at hg
    cases hg
    have h2 : (Except.ok (st, ([] : List Value))
        : Except VMError (VMState × List Value)) = .ok (st', out) := h
    cases h2
    rfl
  | cons s ss ih =>
    intro hwf ins hg st st' out h
    simp only [generate] at hg
    cases hgs : generate_statement s with
    | error e => simp only [hgs] at hg; cases hg
    | ok code =>
      simp only [hgs] at hg
      rw [generate_append] at hg
      cases hg2 : generate [] ss with
      | error e => simp only [hg2, Except.map] at hg; cases hg
      | ok ins1 =>
        simp only [hg2, Except.map, List.nil_append] at hg
        cases hg
        rw [execute_append] at h
        cases hE1 : execute st code with
        | error e0 => simp only [hE1] at h; cases h
        | ok p =>
          obtain ⟨s1, o1⟩ := p
          simp only [hE1] at h
          have hst1 : s1.stack = st.stack :=
            genS_exec (hwf s (List.mem_cons_self s ss)) hgs st s1 o1 hE1
          cases hE2 : execute s1 ins1 with
          | error e0 => simp only [hE2] at h; cases h
          | ok q =>
            obtain ⟨s2, o2⟩ := q
            simp only [hE2] at h
            simp only [Except.ok.injEq, Prod.mk.injEq] at h
            obtain ⟨rfl, rfl⟩ := h
            have hst2 : s2.stack = s1.stack :=
              ih (fun t ht => hwf t (List.mem_cons_of_mem s ht)) ins1 hg2 s1 s2 o2 hE2
            rw [hst2, hst1]

/-- C6: a well-formed program — one that tokenises, parses, generates
and executes from a fresh VM without error — leaves the operand stack
empty: each statement's instructions have net-zero stack effect, the
final `STORE`/`PRINT` draining the one value its expression pushed. -/
theorem wellformed_program_net_zero_stack (code : String) (toks : List Token)
    (stmts : List Stmt) (ins : List String) (st : VMState) (out : List Value)
    (h1 : tokenize [] code = .ok toks) (h2 : parse toks = .ok stmts)
    (h3 : generate [] stmts = .ok ins)
    (h4 : execute freshVM ins = .ok (st, out)) :
    st.stack = [] := by
  have hW := tokenize_wf h1
  have hS := parse_wf hW h2
  have hfin := generate_exec stmts hS ins h3 freshVM st out h4
  simpa [freshVM] using hfin

theorem wellformed_program_net_zero_stack_witness : freshVM.stack = [] :=
  wellformed_program_net_zero_stack "print 1;"
    [⟨"IDENTIFIER", .vstr "print"⟩, ⟨"NUMBER", .vint 1⟩,
      ⟨"SEMICOLON", .vstr ";"⟩, eofToken]
    [.printS (.leaf "NUMBER" (.vint 1))]
    ["PUSH 1", "PRINT"] freshVM [.vint 1] rfl rfl rfl rfl
